import Mathlib

/-!
Shallow embedding of cargo's resolved-dependency-graph core
(`src/cargo/core/resolver/resolve.rs`) and of the artifact-dependency
environment projection (`src/cargo/core/compiler/artifact.rs`).

Rust `HashMap`s are embedded as association lists (`List (κ × ν)`) read
through `List.lookup`; a `HashMap` can never hold two entries with the same
key, so theorems that depend on key uniqueness take it as an explicit
`Nodup` hypothesis on the key list.  Rust `HashSet`s become lists whose
membership is all that is ever queried.  Fallible Rust functions
(`CargoResult`) return `Except`; functions that can `panic!`/`unreachable!`
return `Option`, with `none` standing for the aborted computation.
-/

/-- `PackageId`: (name, version, source-location) with structural equality,
the sole vertex key of the resolved graph. The version and source are kept
abstract as strings/numbers since only identity matters here. -/
structure PackageId where
  name : String
  version : String
  source : Nat
deriving DecidableEq, Repr

/-- `DepKind` from `core/dependency.rs`: the dependency category. -/
inductive DepKind
  | Normal
  | Build
  | Dev
deriving DecidableEq, Repr

/-- One declared dependency edge, projected to the fields the resolver core
reads: its category (`kind()`), its visibility (`is_public()`) and the
optional explicit rename from the manifest (`explicit_name_in_toml()`). -/
structure Dependency where
  kind : DepKind
  is_public : Bool
  explicit_name_in_toml : Option String
deriving DecidableEq, Repr

/-- `Graph<PackageId, HashSet<Dependency>>` from `util::graph`: an
adjacency map from each vertex to its outgoing edges, each edge carrying
the set of `Dependency` declarations for that package pair. -/
structure Graph where
  nodes : List (PackageId × List (PackageId × List Dependency))
deriving DecidableEq, Repr

/-- `Graph::edges(p)`: the outgoing (target, edge-set) pairs of `p`. -/
def Graph.edges (g : Graph) (p : PackageId) : List (PackageId × List Dependency) :=
  (List.lookup p g.nodes).getD []

/-- `Graph::edge(from, to)`: the edge set between two vertices, if any. -/
def Graph.edge (g : Graph) (a b : PackageId) : Option (List Dependency) :=
  (List.lookup a g.nodes).bind (fun es => List.lookup b es)

/-- `Graph::contains(k)`: whether `k` is a vertex. -/
def Graph.contains (g : Graph) (p : PackageId) : Bool :=
  (List.lookup p g.nodes).isSome

/-- The `[metadata]` bag of `Cargo.lock` (`encode::Metadata`, a
`BTreeMap<String, String>` of unrecognized keys kept for forward
compatibility). -/
abbrev Metadata := List (String × String)

/-- `ResolveVersion`: the ordered lockfile-dialect enum. -/
inductive ResolveVersion
  | V1
  | V2
  | V3
deriving DecidableEq, Repr

/-- A package's `Summary`, projected to its identity (the resolver core
stores summaries only to answer later queries, none of which the claims
touch). -/
structure Summary where
  package_id : PackageId
deriving DecidableEq, Repr

/-- The resolved dependency graph with its side tables, mirroring the
fields of `struct Resolve`. -/
structure Resolve where
  graph : Graph
  replacements : List (PackageId × PackageId)
  reverse_replacements : List (PackageId × PackageId)
  features : List (PackageId × List String)
  checksums : List (PackageId × Option String)
  metadata : Metadata
  unused_patches : List PackageId
  public_dependencies : List (PackageId × List PackageId)
  version : ResolveVersion
  summaries : List (PackageId × Summary)
deriving DecidableEq, Repr

/-- `HashMap` insertion for an association list: entries with the inserted
key are dropped and the new binding appended, so a later insert of the
same key overwrites an earlier one, as in Rust. -/
def insertAL (m : List (PackageId × PackageId)) (kv : PackageId × PackageId) :
    List (PackageId × PackageId) :=
  m.filter (fun e => !(e.1 == kv.1)) ++ [kv]

/-- `collect::<HashMap<_, _>>()` over a sequence of pairs: repeated
insertion into an empty map, so of entries sharing a key the last wins. -/
def collectAL (l : List (PackageId × PackageId)) : List (PackageId × PackageId) :=
  l.foldl insertAL []

/-- The predicate of `Resolve::new`'s `public_dependencies` scan: an edge
set counts when some declaration in it is `Normal` and public. -/
def hasPublicNormalDep (e : PackageId × List Dependency) : Bool :=
  e.2.any (fun d => d.kind == DepKind.Normal && d.is_public)

/-- `Resolve::new`: assembles the structure and derives
`reverse_replacements` (the replacement map, inverted and collected into a
map) and `public_dependencies` (for each vertex, the edge targets whose
edge set holds a public `Normal` declaration). `public_dependencies` is
collected keyed by the graph's vertices, which a `HashMap` keeps unique,
so a plain per-vertex map embeds that collect. -/
def Resolve.new (graph : Graph) (replacements : List (PackageId × PackageId))
    (features : List (PackageId × List String))
    (checksums : List (PackageId × Option String)) (metadata : Metadata)
    (unused_patches : List PackageId) (version : ResolveVersion)
    (summaries : List (PackageId × Summary)) : Resolve :=
  let reverse_replacements := collectAL (replacements.map (fun pr => (pr.2, pr.1)))
  let public_dependencies := graph.nodes.map (fun pe =>
    (pe.1, ((Graph.edges graph pe.1).filter hasPublicNormalDep).map Prod.fst))
  { graph, replacements, reverse_replacements, features, checksums, metadata,
    unused_patches, public_dependencies, version, summaries }

/-- The three `anyhow::bail!` sites of `Resolve::merge_from`, by package. -/
inductive MergeError
  | checksumAppeared (id : PackageId)
  | checksumDisappeared (id : PackageId)
  | checksumChanged (id : PackageId)
deriving DecidableEq, Repr

/-- The checksum audit loop of `Resolve::merge_from`: walk the previous
resolution's checksum table; entries the new resolution does not know are
skipped, equal entries pass, and the first unequal pair aborts with the
error matching its shape. -/
def auditChecksums (mine : List (PackageId × Option String)) :
    List (PackageId × Option String) → Except MergeError Unit
  | [] => Except.ok ()
  | (id, cksum) :: rest =>
    match List.lookup id mine with
    | none => auditChecksums mine rest
    | some m =>
      if m = cksum then auditChecksums mine rest
      else if cksum = none then Except.error (MergeError.checksumAppeared id)
      else if m = none then Except.error (MergeError.checksumDisappeared id)
      else Except.error (MergeError.checksumChanged id)

/-- `Resolve::merge_from(&mut self, previous)`: the first component is the
state of `self` when the call returns, the second the returned
`CargoResult`. The metadata and version copies happen only after the whole
audit has passed, exactly as in the source, where every `bail!` precedes
the two assignments. -/
def Resolve.merge_from (self : Resolve) (previous : Resolve) :
    Resolve × Except MergeError Unit :=
  match auditChecksums self.checksums previous.checksums with
  | Except.error e => (self, Except.error e)
  | Except.ok _ =>
    ({ self with metadata := previous.metadata, version := previous.version },
      Except.ok ())

/-- `Resolve::is_public_dep(pkg, dep)`: `none` embeds the
`unwrap_or_else(|| panic!(..))` abort taken when `pkg` has no entry in
`public_dependencies`. -/
def Resolve.is_public_dep (r : Resolve) (pkg dep : PackageId) : Option Bool :=
  (List.lookup pkg r.public_dependencies).map (fun pd => pd.contains dep)

/-- `PartialEq for Resolve`: the hand-written `compare!` expansion, which
lists every field except `version`. -/
def Resolve.eq (a b : Resolve) : Bool :=
  decide (a.graph = b.graph) && decide (a.replacements = b.replacements) &&
  decide (a.reverse_replacements = b.reverse_replacements) &&
  decide (a.features = b.features) && decide (a.checksums = b.checksums) &&
  decide (a.metadata = b.metadata) && decide (a.unused_patches = b.unused_patches) &&
  decide (a.public_dependencies = b.public_dependencies) &&
  decide (a.summaries = b.summaries)

/-- Rust `str::replace("-", "_")` for the single-character pattern the
source uses, character by character. -/
def dashToUnderscore (s : String) : String :=
  String.mk (s.data.map (fun c => if c = '-' then '_' else c))

/-- Rust `str::to_uppercase`, character by character. -/
def strToUpper (s : String) : String :=
  String.mk (s.data.map Char.toUpper)

/-- `CrateType` of a compiled crate (`core/compiler` / manifest). -/
inductive CrateType
  | Bin
  | Lib
  | Rlib
  | Dylib
  | Cdylib
  | Staticlib
  | ProcMacro
deriving DecidableEq, Repr

/-- `TargetKind` of a build target (`core/manifest.rs`). -/
inductive TargetKind
  | Lib (kinds : List CrateType)
  | Bin
  | Test
  | Bench
  | ExampleBin
  | CustomBuild
deriving DecidableEq, Repr

/-- A build target, projected to what the two algorithms read: its name
and its kind. -/
structure Target where
  name : String
  kind : TargetKind
deriving DecidableEq, Repr

/-- Modelled from the spec: `Target::crate_name` lives in `core/manifest.rs`,
which is not under `src/`; per the spec the default identifier is "the
target's canonical crate name (derived from its build-target name,
non-configurable)", the build-target name made into an identifier. -/
def Target.crate_name (t : Target) : String :=
  dashToUnderscore t.name

/-- `ExternResult`: the two failure channels of
`Resolve::extern_crate_name_and_dep_name` kept distinct, as in the source:
`panics` embeds the `panic!` of `dependencies_listed` (an internal
invariant violation), `err` the recoverable "multiple times with different
names" `CargoResult` error. -/
inductive ExternResult
  | panics
  | err
  | ok (name : String) (dep_name : Option String)
deriving DecidableEq, Repr

/-- `Resolve::dependencies_listed(from, to)`: replacement-aware edge-set
lookup. When `to` is the target of a replacement the edge is first sought
through the original package; `none` embeds the `panic!("no Dependency
listed ...")` when no edge exists at all. -/
def Resolve.dependencies_listed (r : Resolve) (f t : PackageId) :
    Option (List Dependency) :=
  match (List.lookup t r.reverse_replacements).bind
      (fun replace => r.graph.edge f replace) with
  | some deps => some deps
  | none => r.graph.edge f t

/-- The name one declared edge gives the dependency: its explicit rename
(dashes made underscores) when present, the target's canonical crate name
otherwise — the closure mapped over `deps` in the source. -/
def effective_extern_name (crate_name : String) (d : Dependency) : String :=
  match d.explicit_name_in_toml with
  | some s => dashToUnderscore s
  | none => crate_name

/-- `Resolve::extern_crate_name_and_dep_name(from, to, to_target)`: a
self-dependency uses the empty edge set; otherwise the declared edge set is
looked up (panicking when absent). The first per-edge name is taken, every
later one must equal it or the call fails, and the first explicit rename is
returned alongside. -/
def Resolve.extern_crate_name_and_dep_name (r : Resolve) (f t : PackageId)
    (to_target : Target) : ExternResult :=
  let deps? := if f = t then some [] else r.dependencies_listed f t
  match deps? with
  | none => ExternResult.panics
  | some deps =>
    let crate_name := to_target.crate_name
    match deps.map (effective_extern_name crate_name) with
    | [] => ExternResult.ok crate_name
        (deps.filterMap (fun d => d.explicit_name_in_toml)).head?
    | name :: rest =>
      if rest.all (fun n => n == name) then
        ExternResult.ok name
          (deps.filterMap (fun d => d.explicit_name_in_toml)).head?
      else ExternResult.err

/-- Modelled from the spec: the compiler `Metadata` hash
(`core/compiler/context` is not under `src/`) identifies a unit's build
output slot; only its identity is used as the key of the returned record. -/
abbrev UnitMetadata := Nat

/-- Modelled from the spec: `FileFlavor` (`core/compiler/build_context` is
not under `src/`); only the "normal" output flavor is projected, the other
variants stand for debug-info and metadata-only outputs. -/
inductive FileFlavor
  | Normal
  | Rmeta
  | DebugInfo
  | Auxiliary
deriving DecidableEq, Repr

/-- One realized build-output file: its path (as components, the last being
the file name) and its flavor. -/
structure OutputFile where
  path : List String
  flavor : FileFlavor
deriving DecidableEq, Repr

/-- Modelled from the spec: a compilation `Unit` (`core/compiler/unit.rs`
is not under `src/`), projected to what `set_env` reads of it: whether it
is an artifact unit (`unit.artifact.is_true()`), its package's name
(`unit.pkg.name()`), its build target, and its compiler metadata hash
(`cx.files().metadata(&unit)`, a deterministic function of the unit). -/
structure Unit' where
  is_artifact : Bool
  pkg_name : String
  target : Target
  metadata : UnitMetadata
deriving DecidableEq, Repr

/-- Modelled from the spec: a `UnitDep` edge of the unit graph
(`core/compiler/unit_graph.rs` is not under `src/`): the dependency's
resolved unit and the declared dependency name (`dep_name`, the explicit
rename when one was configured). -/
structure UnitDep where
  unit : Unit'
  dep_name : Option String
deriving DecidableEq, Repr

/-- Modelled from the spec: the slice of the build `Context` that `set_env`
reads — the realized build-output files of each unit (`cx.outputs(&unit)`). -/
structure Context where
  outputs : Unit' → List OutputFile

/-- `unit_artifact_type_name_upper`: the artifact-type tag of a unit's
target kind; `none` embeds the two `unreachable!` aborts for shapes an
artifact unit can never have. -/
def unit_artifact_type_name_upper (unit : Unit') : Option String :=
  match unit.target.kind with
  | TargetKind.Lib kinds =>
    match kinds with
    | [CrateType.Cdylib] => some "CDYLIB"
    | [CrateType.Staticlib] => some "STATICLIB"
    | _ => none
  | TargetKind.Bin => some "BIN"
  | _ => none

/-- The effective dependency name of one artifact edge:
`unit_dep.dep_name.unwrap_or(unit_dep.unit.pkg.name())`. -/
def effective_dep_name (ud : UnitDep) : String :=
  ud.dep_name.getD ud.unit.pkg_name

/-- `dep_name.to_uppercase().replace("-", "_")`. -/
def dep_name_upper (ud : UnitDep) : String :=
  dashToUnderscore (strToUpper (effective_dep_name ud))

/-- The body of `set_env`'s inner loop for one output file of one artifact
dependency: the (variable, value) pairs inserted into the per-dependency
set (and set on `cmd`). `none` embeds the `unreachable!` for an impossible
target shape and the `.expect("parent dir for artifacts")` on a pathless
file. -/
def env_for_file (ud : UnitDep) (path : List String) :
    Option (List (String × List String)) :=
  match unit_artifact_type_name_upper ud.unit with
  | none => none
  | some ty =>
    if path.isEmpty then none
    else
      let dn := effective_dep_name ud
      let dnu := dep_name_upper ud
      let base := [("CARGO_" ++ ty ++ "_DIR_" ++ dnu, path.dropLast),
        ("CARGO_" ++ ty ++ "_FILE_" ++ dnu ++ "_" ++ ud.unit.target.name, path)]
      if ud.unit.target.name = dn then
        some (base ++ [("CARGO_" ++ ty ++ "_FILE_" ++ dnu, path)])
      else some base

/-- `set_env`'s inner loop over one dependency's output files, keeping the
`FileFlavor::Normal` ones: the per-dependency `set`. -/
def env_for_files (ud : UnitDep) : List OutputFile →
    Option (List (String × List String))
  | [] => some []
  | f :: rest =>
    if f.flavor = FileFlavor.Normal then
      match env_for_file ud f.path with
      | none => none
      | some vs => (env_for_files ud rest).map (fun tail => vs ++ tail)
    else env_for_files ud rest

/-- `set_env`'s outer loop over the unit's dependencies, keeping the
artifact ones: all pairs set on `cmd`, and the `ret` record, to which a
dependency contributes only when its set is non-empty. -/
def set_env_deps (cx : Context) : List UnitDep →
    Option (List (String × List String) ×
      List (UnitMetadata × List (String × List String)))
  | [] => some ([], [])
  | ud :: rest =>
    if ud.unit.is_artifact then
      match env_for_files ud (cx.outputs ud.unit) with
      | none => none
      | some set =>
        match set_env_deps cx rest with
        | none => none
        | some (cmds, ret) =>
          some (set ++ cmds,
            if set.isEmpty then ret else (ud.unit.metadata, set) :: ret)
    else set_env_deps cx rest

/-- `set_env(cx, dependencies, cmd)`: the environment assignments applied
to `cmd` and the returned record, which is `None` when empty
(`(!ret.is_empty()).then(..)`). The outer `none` embeds a panic. -/
def set_env (cx : Context) (dependencies : List UnitDep) :
    Option (List (String × List String) ×
      Option (List (UnitMetadata × List (String × List String)))) :=
  (set_env_deps cx dependencies).map (fun cr =>
    (cr.1, if cr.2.isEmpty then none else some cr.2))

deriving instance DecidableEq for Except

theorem lookup_eq_some_of_mem_of_nodup {α β : Type} [BEq α] [LawfulBEq α]
    {l : List (α × β)} {k : α} {v : β}
    (hnd : (l.map Prod.fst).Nodup) (hm : (k, v) ∈ l) :
    List.lookup k l = some v := by
  induction l with
  | nil => cases hm
  | cons kv rest ih =>
    obtain ⟨k1, v1⟩ := kv
    simp only [List.map_cons, List.nodup_cons] at hnd
    rcases List.mem_cons.mp hm with h | h
    · cases h
      simp [List.lookup]
    · have hk : k ≠ k1 := by
        rintro rfl
        exact hnd.1 (List.mem_map.mpr ⟨(k, v), h, rfl⟩)
      simp only [List.lookup]
      rw [show (k == k1) = false from beq_eq_false_iff_ne.mpr hk]
      exact ih hnd.2 h

theorem lookup_map_fun {α β γ : Type} [BEq α] [LawfulBEq α]
    (g : α → γ) (l : List (α × β)) (k : α) :
    List.lookup k (l.map (fun pe => (pe.1, g pe.1))) =
      (List.lookup k l).map (fun _ => g k) := by
  induction l with
  | nil => simp
  | cons kv rest ih =>
    obtain ⟨k1, v1⟩ := kv
    by_cases h : k = k1
    · subst h
      simp [List.lookup]
    · simp only [List.map_cons, List.lookup]
      rw [show (k == k1) = false from beq_eq_false_iff_ne.mpr h]
      exact ih

theorem auditChecksums_ok_iff (mine prev : List (PackageId × Option String)) :
    auditChecksums mine prev = Except.ok () ↔
      ∀ id c, (id, c) ∈ prev →
        ∀ m, List.lookup id mine = some m → m = c := by
  induction prev with
  | nil => simp [auditChecksums]
  | cons e rest ih =>
    obtain ⟨id, c⟩ := e
    simp only [auditChecksums]
    cases hl : List.lookup id mine with
    | none =>
      rw [ih]
      constructor
      · intro h id' c' hm m hm'
        rcases List.mem_cons.mp hm with h1 | h1
        · cases h1
          rw [hl] at hm'
          cases hm'
        · exact h id' c' h1 m hm'
      · intro h id' c' hm m hm'
        exact h id' c' (List.mem_cons_of_mem _ hm) m hm'
    | some m =>
      dsimp only
      by_cases hm : m = c
      · subst hm
        rw [if_pos rfl, ih]
        constructor
        · intro h id' c' hmem m' hm'
          rcases List.mem_cons.mp hmem with h1 | h1
          · obtain ⟨rfl, rfl⟩ := Prod.mk.injEq .. ▸ h1
            rw [hl] at hm'
            exact (Option.some.injEq .. ▸ hm').symm ▸ rfl
          · exact h id' c' h1 m' hm'
        · intro h id' c' hmem m' hm'
          exact h id' c' (List.mem_cons_of_mem _ hmem) m' hm'
      · rw [if_neg hm]
        constructor
        · intro h
          exfalso
          by_cases hc : c = none
          · rw [if_pos hc] at h
            cases h
          · rw [if_neg hc] at h
            by_cases hmn : m = none
            · rw [if_pos hmn] at h
              cases h
            · rw [if_neg hmn] at h
              cases h
        · intro h
          exact absurd (h id c (List.mem_cons_self ..) m hl) hm

theorem merge_from_result_iff_audit (s q : Resolve) :
    (s.merge_from q).2 = Except.ok () ↔
      auditChecksums s.checksums q.checksums = Except.ok () := by
  unfold Resolve.merge_from
  cases haudit : auditChecksums s.checksums q.checksums with
  | error e => simp
  | ok u => cases u; simp

def pidA : PackageId := ⟨"a", "1.0.0", 0⟩

def pidB : PackageId := ⟨"b", "1.0.0", 0⟩

def pidT : PackageId := ⟨"t", "1.0.0", 0⟩

def rEx1 : Resolve :=
  Resolve.new ⟨[]⟩ [] [] [(pidA, some "abc"), (pidB, none)] [("extra", "1")] []
    ResolveVersion.V1 []

def rEx2 : Resolve :=
  Resolve.new ⟨[]⟩ [] [] [(pidA, some "abc")] [] [] ResolveVersion.V3 []

def rEx3 : Resolve :=
  Resolve.new ⟨[]⟩ [] [] [(pidA, some "zzz")] [] [] ResolveVersion.V2 []

/-- C1: `merge_from(previous)` errs exactly when some package of the
previous checksum table is known to the new resolution with an unequal
checksum entry (packages the new resolution lacks are skipped), and
merging a resolution with itself always succeeds. -/
theorem merge_from_ok_iff_checksums_agree (s p : Resolve)
    (h : (s.checksums.map Prod.fst).Nodup) :
    ((s.merge_from p).2 = Except.ok () ↔
      ∀ id c, (id, c) ∈ p.checksums →
        ∀ m, List.lookup id s.checksums = some m → m = c)
    ∧ (s.merge_from s).2 = Except.ok () := by
  constructor
  · rw [merge_from_result_iff_audit, auditChecksums_ok_iff]
  · rw [merge_from_result_iff_audit, auditChecksums_ok_iff]
    intro id c hm m hl
    have hc := lookup_eq_some_of_mem_of_nodup h hm
    exact Option.some_inj.mp (hl.symm.trans hc)

/-- C1 witness: the characterization and self-merge stability at a
concrete pair of resolutions. -/
theorem merge_from_ok_iff_checksums_agree_witness :
    ((rEx1.merge_from rEx2).2 = Except.ok () ↔
      ∀ id c, (id, c) ∈ rEx2.checksums →
        ∀ m, List.lookup id rEx1.checksums = some m → m = c)
    ∧ (rEx1.merge_from rEx1).2 = Except.ok () :=
  merge_from_ok_iff_checksums_agree rEx1 rEx2 (by decide)

/-- C4: a successful `merge_from` leaves the previous resolution's
metadata bag and version on the result, whatever the new resolution held. -/
theorem merge_from_carries_metadata_and_version (s p r : Resolve)
    (h : s.merge_from p = (r, Except.ok ())) :
    r.metadata = p.metadata ∧ r.version = p.version := by
  unfold Resolve.merge_from at h
  cases haudit : auditChecksums s.checksums p.checksums with
  | error e =>
    rw [haudit] at h
    simp at h
  | ok u =>
    cases u
    rw [haudit] at h
    obtain ⟨rfl, -⟩ := Prod.mk.injEq .. ▸ h
    exact ⟨rfl, rfl⟩

/-- C4 witness: metadata/version carry-over at a concrete successful
merge. -/
theorem merge_from_carries_metadata_and_version_witness :
    (rEx1.merge_from rEx2).1.metadata = rEx2.metadata ∧
      (rEx1.merge_from rEx2).1.version = rEx2.version :=
  merge_from_carries_metadata_and_version rEx1 rEx2 (rEx1.merge_from rEx2).1 rfl

/-- C10: a failing `merge_from` leaves the receiver unchanged — the
metadata and version copies happen only after the audit has passed. -/
theorem merge_from_atomic_on_error (s p r : Resolve) (e : MergeError)
    (h : s.merge_from p = (r, Except.error e)) : r = s := by
  unfold Resolve.merge_from at h
  cases haudit : auditChecksums s.checksums p.checksums with
  | error e' =>
    rw [haudit] at h
    obtain ⟨rfl, -⟩ := Prod.mk.injEq .. ▸ h
    rfl
  | ok u =>
    cases u
    rw [haudit] at h
    simp at h

/-- C10 witness: a concrete failing merge (checksum drift on `pidA`)
returns the receiver untouched. -/
theorem merge_from_atomic_on_error_witness :
    (rEx3.merge_from rEx2).1 = rEx3 :=
  merge_from_atomic_on_error rEx3 rEx2 (rEx3.merge_from rEx2).1
    (MergeError.checksumChanged pidA) rfl

/-- C9: `PartialEq for Resolve` compares every field except `version`: the
comparison holds exactly when the nine listed fields agree, and two values
differing only in their `ResolveVersion` compare equal. -/
theorem resolve_eq_ignores_version :
    (∀ a b : Resolve, Resolve.eq a b = true ↔
      (a.graph = b.graph ∧ a.replacements = b.replacements ∧
        a.reverse_replacements = b.reverse_replacements ∧
        a.features = b.features ∧ a.checksums = b.checksums ∧
        a.metadata = b.metadata ∧ a.unused_patches = b.unused_patches ∧
        a.public_dependencies = b.public_dependencies ∧
        a.summaries = b.summaries))
    ∧ ∀ (r : Resolve) (v : ResolveVersion),
        Resolve.eq { r with version := v } r = true := by
  constructor
  · intro a b
    simp [Resolve.eq, and_assoc]
  · intro r v
    simp [Resolve.eq]

/-- C3: in a constructed `Resolve`, the `public_dependencies` entry of a
package holds exactly the edge targets whose stored edge set contains a
`Normal`, public declaration. -/
theorem public_dependencies_exact (g : Graph)
    (rep : List (PackageId × PackageId)) (fea : List (PackageId × List String))
    (ck : List (PackageId × Option String)) (md : Metadata)
    (up : List PackageId) (v : ResolveVersion)
    (sm : List (PackageId × Summary)) (p : PackageId) (pd : List PackageId)
    (h : List.lookup p
      (Resolve.new g rep fea ck md up v sm).public_dependencies = some pd) :
    ∀ q, q ∈ pd ↔ ∃ deps, (q, deps) ∈ Graph.edges g p ∧
      ∃ d ∈ deps, d.kind = DepKind.Normal ∧ d.is_public = true := by
  have hf := lookup_map_fun
    (fun a => ((Graph.edges g a).filter hasPublicNormalDep).map Prod.fst)
    g.nodes p
  have hpub : (Resolve.new g rep fea ck md up v sm).public_dependencies =
      g.nodes.map (fun pe =>
        (pe.1, ((Graph.edges g pe.1).filter hasPublicNormalDep).map Prod.fst)) := rfl
  rw [hpub, hf] at h
  cases hl : List.lookup p g.nodes with
  | none => rw [hl] at h; cases h
  | some es =>
    rw [hl] at h
    obtain rfl : pd = ((Graph.edges g p).filter hasPublicNormalDep).map Prod.fst :=
      (Option.some_inj.mp h).symm
    intro q
    simp only [List.mem_map, List.mem_filter]
    constructor
    · rintro ⟨⟨t, deps⟩, ⟨hmem, hpred⟩, rfl⟩
      refine ⟨deps, hmem, ?_⟩
      simpa [hasPublicNormalDep, List.any_eq_true, Bool.and_eq_true,
        beq_iff_eq] using hpred
    · rintro ⟨deps, hmem, d, hd, hk, hp⟩
      refine ⟨(q, deps), ⟨hmem, ?_⟩, rfl⟩
      simp only [hasPublicNormalDep, List.any_eq_true, Bool.and_eq_true,
        beq_iff_eq]
      exact ⟨d, hd, hk, hp⟩

def depPub : Dependency := ⟨DepKind.Normal, true, none⟩

def depPriv : Dependency := ⟨DepKind.Normal, false, none⟩

def gEx : Graph :=
  ⟨[(pidA, [(pidB, [depPub]), (pidT, [depPriv])]), (pidB, []), (pidT, [])]⟩

/-- C3 witness: on a concrete graph, membership of `pidB` in `pidA`'s
public-dependency entry yields the witnessing public `Normal` edge. -/
theorem public_dependencies_exact_witness :
    ∃ deps, (pidB, deps) ∈ Graph.edges gEx pidA ∧
      ∃ d ∈ deps, d.kind = DepKind.Normal ∧ d.is_public = true :=
  (public_dependencies_exact gEx [] [] [] [] [] ResolveVersion.V2 [] pidA [pidB]
    (by decide) pidB).mp (by decide)

/-- C8: `is_public_dep(pkg, dep)` aborts exactly when `pkg` is not a
vertex of the constructed graph, and on any vertex returns the boolean
membership of `dep` in that vertex's public-dependency set. -/
theorem is_public_dep_panics_iff_unknown (g : Graph)
    (rep : List (PackageId × PackageId)) (fea : List (PackageId × List String))
    (ck : List (PackageId × Option String)) (md : Metadata)
    (up : List PackageId) (v : ResolveVersion)
    (sm : List (PackageId × Summary)) (pkg dep : PackageId) :
    ((Resolve.new g rep fea ck md up v sm).is_public_dep pkg dep = none ↔
      Graph.contains g pkg = false)
    ∧ ∀ pd, List.lookup pkg
        (Resolve.new g rep fea ck md up v sm).public_dependencies = some pd →
      (Resolve.new g rep fea ck md up v sm).is_public_dep pkg dep =
        some (pd.contains dep) := by
  have hf := lookup_map_fun
    (fun a => ((Graph.edges g a).filter hasPublicNormalDep).map Prod.fst)
    g.nodes pkg
  have hpub : (Resolve.new g rep fea ck md up v sm).public_dependencies =
      g.nodes.map (fun pe =>
        (pe.1, ((Graph.edges g pe.1).filter hasPublicNormalDep).map Prod.fst)) := rfl
  constructor
  · unfold Resolve.is_public_dep
    rw [hpub, hf]
    cases hl : List.lookup pkg g.nodes with
    | none => simp [Graph.contains, hl]
    | some es => simp [Graph.contains, hl]
  · intro pd hpd
    unfold Resolve.is_public_dep
    rw [hpd]
    rfl

/-- C8 witness: on the concrete graph, the query for the known vertex
`pidA` returns the membership boolean. -/
theorem is_public_dep_panics_iff_unknown_witness :
    (Resolve.new gEx [] [] [] [] [] ResolveVersion.V2 []).is_public_dep
      pidA pidB = some (List.contains [pidB] pidB) :=
  (is_public_dep_panics_iff_unknown gEx [] [] [] [] [] ResolveVersion.V2 []
    pidA pidB).2 [pidB] (by decide)

theorem lookup_append {α β : Type} [BEq α] (k : α) (l1 l2 : List (α × β)) :
    List.lookup k (l1 ++ l2) =
      (List.lookup k l1).orElse (fun _ => List.lookup k l2) := by
  induction l1 with
  | nil => simp
  | cons kv rest ih =>
    obtain ⟨k1, v1⟩ := kv
    cases hb : k == k1 with
    | true => simp [List.lookup, hb]
    | false => simp [List.lookup, hb, ih]

theorem lookup_cons_ne {α β : Type} [BEq α] [LawfulBEq α] {k k1 : α} (v1 : β)
    (rest : List (α × β)) (h : k ≠ k1) :
    List.lookup k ((k1, v1) :: rest) = List.lookup k rest := by
  simp only [List.lookup]
  rw [show (k == k1) = false from beq_eq_false_iff_ne.mpr h]

theorem lookup_filter_out {k0 : PackageId} {m : List (PackageId × PackageId)}
    (k : PackageId) :
    List.lookup k (m.filter (fun e => !(e.1 == k0))) =
      if k = k0 then none else List.lookup k m := by
  induction m with
  | nil => simp
  | cons kv rest ih =>
    obtain ⟨k1, v1⟩ := kv
    by_cases h1 : k1 = k0
    · subst h1
      rw [List.filter_cons_of_neg (by simp), ih]
      by_cases h2 : k = k1
      · subst h2; simp
      · rw [if_neg (h2 ·), if_neg (h2 ·), lookup_cons_ne v1 rest h2]
    · rw [List.filter_cons_of_pos (by simp [h1])]
      by_cases h2 : k = k1
      · subst h2
        simp only [List.lookup, beq_self_eq_true]
        rw [if_neg h1]
      · rw [lookup_cons_ne v1 _ h2, lookup_cons_ne v1 rest h2, ih]

theorem lookup_insertAL (m : List (PackageId × PackageId))
    (kv : PackageId × PackageId) (k : PackageId) :
    List.lookup k (insertAL m kv) =
      if k = kv.1 then some kv.2 else List.lookup k m := by
  obtain ⟨k1, v1⟩ := kv
  unfold insertAL
  rw [lookup_append, lookup_filter_out]
  by_cases h : k = k1
  · subst h
    simp [List.lookup, Option.orElse]
  · rw [if_neg h, if_neg h]
    cases List.lookup k m with
    | none =>
      simp only [Option.orElse]
      exact lookup_cons_ne v1 [] h
    | some v => simp [Option.orElse]

theorem lookup_collectAL_aux (l : List (PackageId × PackageId))
    (acc : List (PackageId × PackageId)) (k : PackageId) :
    List.lookup k (l.foldl insertAL acc) =
      (List.lookup k l.reverse).orElse (fun _ => List.lookup k acc) := by
  induction l generalizing acc with
  | nil => simp
  | cons kv rest ih =>
    obtain ⟨k1, v1⟩ := kv
    simp only [List.foldl_cons, List.reverse_cons]
    rw [ih, lookup_append, lookup_insertAL]
    cases List.lookup k rest.reverse with
    | some v => simp [Option.orElse]
    | none =>
      simp only [Option.orElse]
      by_cases h : k = k1
      · subst h
        simp [List.lookup]
      · rw [if_neg h, lookup_cons_ne v1 [] h]
        simp [List.lookup]

theorem lookup_collectAL (l : List (PackageId × PackageId)) (k : PackageId) :
    List.lookup k (collectAL l) = List.lookup k l.reverse := by
  unfold collectAL
  rw [lookup_collectAL_aux]
  cases List.lookup k l.reverse with
  | some v => simp [Option.orElse]
  | none => simp [Option.orElse]

theorem mem_of_lookup_eq_some {α β : Type} [BEq α] [LawfulBEq α]
    {l : List (α × β)} {k : α} {v : β} (h : List.lookup k l = some v) :
    (k, v) ∈ l := by
  induction l with
  | nil => cases h
  | cons kv rest ih =>
    obtain ⟨k1, v1⟩ := kv
    cases hb : k == k1 with
    | true =>
      simp only [List.lookup, hb] at h
      obtain rfl := Option.some_inj.mp h
      obtain rfl := eq_of_beq hb
      exact List.mem_cons_self ..
    | false =>
      simp only [List.lookup, hb] at h
      exact List.mem_cons_of_mem _ (ih h)

def rColl : Resolve :=
  Resolve.new ⟨[]⟩ [(pidA, pidT), (pidB, pidT)] [] [] [] [] ResolveVersion.V2 []

/-- C5 counterexample: two distinct packages both replaced by `pidT`; the
collected `reverse_replacements` map can keep only one preimage, so the
inverse property fails for the other key. -/
theorem reverse_replacements_collision_counterexample :
    ¬ ∀ p t, List.lookup p rColl.replacements = some t →
        List.lookup t rColl.reverse_replacements = some p := by
  intro h
  exact absurd (h pidA pidT (by decide)) (by decide)

/-- C5 (amended): when no two replacement entries share a target (the map
is injective), `reverse_replacements` sends each replacement's target back
to its original package. -/
theorem reverse_replacements_inverse_of_injective (g : Graph)
    (rep : List (PackageId × PackageId)) (fea : List (PackageId × List String))
    (ck : List (PackageId × Option String)) (md : Metadata)
    (up : List PackageId) (v : ResolveVersion)
    (sm : List (PackageId × Summary)) (p t : PackageId)
    (hinj : (rep.map Prod.snd).Nodup) (hm : List.lookup p rep = some t) :
    List.lookup t
      (Resolve.new g rep fea ck md up v sm).reverse_replacements = some p := by
  have hrev : (Resolve.new g rep fea ck md up v sm).reverse_replacements =
      collectAL (rep.map (fun pr => (pr.2, pr.1))) := rfl
  rw [hrev, lookup_collectAL, ← List.map_reverse]
  have hmem : (p, t) ∈ rep.reverse := List.mem_reverse.mpr (mem_of_lookup_eq_some hm)
  have hnd : ((rep.reverse.map (fun pr => (pr.2, pr.1))).map Prod.fst).Nodup := by
    rw [List.map_map]
    have : (rep.reverse.map fun pr => pr.2).Nodup := by
      rw [List.map_reverse]
      exact List.nodup_reverse.mpr hinj
    simpa using this
  exact lookup_eq_some_of_mem_of_nodup hnd
    (List.mem_map.mpr ⟨(p, t), hmem, rfl⟩)

/-- C5 witness: on an injective one-entry replacement map the inverse
lookup returns the original package. -/
theorem reverse_replacements_inverse_of_injective_witness :
    List.lookup pidT
      (Resolve.new ⟨[]⟩ [(pidA, pidT)] [] [] [] [] ResolveVersion.V2
        []).reverse_replacements = some pidA :=
  reverse_replacements_inverse_of_injective ⟨[]⟩ [(pidA, pidT)] [] [] [] []
    ResolveVersion.V2 [] pidA pidT (by decide) (by decide)

/-- C7: a self-dependency takes the empty-edge-set path: the call returns
the target's canonical crate name with no explicit rename, and never
panics for a missing edge. -/
theorem extern_crate_name_self_dep (r : Resolve) (p : PackageId) (tgt : Target) :
    r.extern_crate_name_and_dep_name p p tgt =
      ExternResult.ok tgt.crate_name none := by
  simp [Resolve.extern_crate_name_and_dep_name]

def depFoo : Dependency := ⟨DepKind.Normal, false, some "foo"⟩

def depPlain : Dependency := ⟨DepKind.Normal, false, none⟩

def tgt6 : Target := ⟨"mylib", TargetKind.Lib [CrateType.Lib]⟩

def r6 : Resolve :=
  Resolve.new ⟨[(pidA, [(pidB, [depFoo, depPlain])]), (pidB, [])]⟩ [] [] [] []
    [] ResolveVersion.V2 []

/-- C6 counterexample: an edge set holding one renamed and one unrenamed
declaration carries exactly one distinct explicit rename, yet the call
fails, because the unrenamed edge contributes the default crate name and
the two names differ. -/
theorem extern_crate_name_single_rename_counterexample :
    r6.dependencies_listed pidA pidB = some [depFoo, depPlain] ∧
    ([depFoo, depPlain].filterMap
      (fun d => d.explicit_name_in_toml)).dedup.length ≤ 1 ∧
    r6.extern_crate_name_and_dep_name pidA pidB tgt6 = ExternResult.err :=
  ⟨by decide, by decide, by decide⟩

/-- C6 (amended): for distinct packages with a listed edge set, the call
fails with the multiple-names diagnostic exactly when two declarations of
the edge set yield different effective names — the normalized explicit
rename where present, the target's default crate name otherwise. -/
theorem extern_crate_name_err_iff (r : Resolve) (f t : PackageId)
    (tgt : Target) (deps : List Dependency) (hne : f ≠ t)
    (hd : r.dependencies_listed f t = some deps) :
    r.extern_crate_name_and_dep_name f t tgt = ExternResult.err ↔
      ∃ d1 ∈ deps, ∃ d2 ∈ deps,
        effective_extern_name tgt.crate_name d1 ≠
          effective_extern_name tgt.crate_name d2 := by
  unfold Resolve.extern_crate_name_and_dep_name
  rw [if_neg hne, hd]
  dsimp only
  cases deps with
  | nil => simp
  | cons d ds =>
    simp only [List.map_cons]
    by_cases hall : (ds.map (effective_extern_name tgt.crate_name)).all
        (fun n => n == effective_extern_name tgt.crate_name d) = true
    · rw [if_pos hall]
      constructor
      · intro h
        exact absurd h (by simp)
      · rintro ⟨d1, hd1, d2, hd2, hne'⟩
        exfalso
        rw [List.all_eq_true] at hall
        have heq : ∀ d' ∈ d :: ds,
            effective_extern_name tgt.crate_name d' =
              effective_extern_name tgt.crate_name d := by
          intro d' hd'
          rcases List.mem_cons.mp hd' with h | hmem
          · rw [h]
          · exact beq_iff_eq.mp (hall _ (List.mem_map.mpr ⟨d', hmem, rfl⟩))
        exact hne' ((heq d1 hd1).trans (heq d2 hd2).symm)
    · rw [if_neg hall]
      constructor
      · intro _
        rw [List.all_eq_true] at hall
        push_neg at hall
        obtain ⟨x, hx, hxne⟩ := hall
        obtain ⟨d2, hd2, rfl⟩ := List.mem_map.mp hx
        refine ⟨d, List.mem_cons_self .., d2, List.mem_cons_of_mem _ hd2,
          fun he => hxne ?_⟩
        exact beq_iff_eq.mpr he.symm
      · intro _
        rfl

/-- C6 witness: the amended characterization instantiated on the concrete
mixed rename/default edge set. -/
theorem extern_crate_name_err_iff_witness :
    r6.extern_crate_name_and_dep_name pidA pidB tgt6 = ExternResult.err ↔
      ∃ d1 ∈ [depFoo, depPlain], ∃ d2 ∈ [depFoo, depPlain],
        effective_extern_name tgt6.crate_name d1 ≠
          effective_extern_name tgt6.crate_name d2 :=
  extern_crate_name_err_iff r6 pidA pidB tgt6 [depFoo, depPlain] (by decide)
    (by decide)

theorem file_var_ne_dir_var (ty dnu : String) :
    "CARGO_" ++ ty ++ "_FILE_" ++ dnu ≠ "CARGO_" ++ ty ++ "_DIR_" ++ dnu := by
  intro h
  have hlen := congrArg String.length h
  simp only [String.length_append,
    show ("_FILE_" : String).length = 6 from rfl,
    show ("_DIR_" : String).length = 5 from rfl] at hlen
  omega

theorem unsuffixed_ne_suffixed (u tname : String) : u ++ "_" ++ tname ≠ u := by
  intro h
  have hlen := congrArg String.length h
  simp only [String.length_append,
    show ("_" : String).length = 1 from rfl] at hlen
  omega

theorem env_for_file_spec (ud : UnitDep) (path : List String) (ty : String)
    (vs : List (String × List String))
    (hty : unit_artifact_type_name_upper ud.unit = some ty)
    (hvs : env_for_file ud path = some vs) :
    ("CARGO_" ++ ty ++ "_DIR_" ++ dep_name_upper ud, path.dropLast) ∈ vs ∧
    ("CARGO_" ++ ty ++ "_FILE_" ++ dep_name_upper ud ++ "_" ++
      ud.unit.target.name, path) ∈ vs ∧
    (("CARGO_" ++ ty ++ "_FILE_" ++ dep_name_upper ud, path) ∈ vs ↔
      ud.unit.target.name = effective_dep_name ud) := by
  unfold env_for_file at hvs
  rw [hty] at hvs
  dsimp only at hvs
  by_cases hp : path.isEmpty
  · rw [if_pos hp] at hvs
    cases hvs
  · rw [if_neg hp] at hvs
    by_cases hn : ud.unit.target.name = effective_dep_name ud
    · rw [if_pos hn] at hvs
      obtain rfl := Option.some_inj.mp hvs
      refine ⟨by simp, by simp, ?_⟩
      constructor
      · intro _
        exact hn
      · intro _
        simp
    · rw [if_neg hn] at hvs
      obtain rfl := Option.some_inj.mp hvs
      refine ⟨by simp, by simp, ?_⟩
      constructor
      · intro hmem
        exfalso
        rcases List.mem_cons.mp hmem with h | h
        · exact file_var_ne_dir_var ty (dep_name_upper ud)
            (congrArg Prod.fst h)
        · rcases List.mem_cons.mp h with h' | h'
          · exact unsuffixed_ne_suffixed
              ("CARGO_" ++ ty ++ "_FILE_" ++ dep_name_upper ud)
              ud.unit.target.name (congrArg Prod.fst h').symm
          · cases h'
      · intro h
        exact absurd h hn

theorem env_for_files_mem (ud : UnitDep) (files : List OutputFile)
    (set : List (String × List String))
    (hset : env_for_files ud files = some set) :
    ∀ f ∈ files, f.flavor = FileFlavor.Normal →
      ∀ vs, env_for_file ud f.path = some vs → ∀ pv ∈ vs, pv ∈ set := by
  induction files generalizing set with
  | nil =>
    intro f hf
    cases hf
  | cons f0 rest ih =>
    intro f hf hfl vs hvs pv hpv
    unfold env_for_files at hset
    by_cases h0 : f0.flavor = FileFlavor.Normal
    · rw [if_pos h0] at hset
      cases hvs0 : env_for_file ud f0.path with
      | none =>
        rw [hvs0] at hset
        cases hset
      | some vs0 =>
        rw [hvs0] at hset
        obtain ⟨tail, htail, rfl⟩ := Option.map_eq_some'.mp hset
        rcases List.mem_cons.mp hf with rfl | hf'
        · have : vs = vs0 := Option.some_inj.mp (hvs ▸ hvs0.symm ▸ rfl)
          subst this
          exact List.mem_append.mpr (Or.inl hpv)
        · exact List.mem_append.mpr
            (Or.inr (ih tail htail f hf' hfl vs hvs pv hpv))
    · rw [if_neg h0] at hset
      rcases List.mem_cons.mp hf with rfl | hf'
      · exact absurd hfl h0
      · exact ih set hset f hf' hfl vs hvs pv hpv

theorem set_env_deps_mem (cx : Context) (deps : List UnitDep)
    (cmds : List (String × List String))
    (ret : List (UnitMetadata × List (String × List String)))
    (hrun : set_env_deps cx deps = some (cmds, ret)) :
    ∀ ud ∈ deps, ud.unit.is_artifact = true →
      ∀ f ∈ cx.outputs ud.unit, f.flavor = FileFlavor.Normal →
        ∀ vs, env_for_file ud f.path = some vs → ∀ pv ∈ vs, pv ∈ cmds := by
  induction deps generalizing cmds ret with
  | nil =>
    intro ud hud
    cases hud
  | cons ud0 rest ih =>
    intro ud hud hart f hf hfl vs hvs pv hpv
    unfold set_env_deps at hrun
    by_cases h0 : ud0.unit.is_artifact = true
    · rw [if_pos h0] at hrun
      cases hset : env_for_files ud0 (cx.outputs ud0.unit) with
      | none =>
        rw [hset] at hrun
        cases hrun
      | some set0 =>
        rw [hset] at hrun
        cases hrest : set_env_deps cx rest with
        | none =>
          rw [hrest] at hrun
          cases hrun
        | some cr =>
          obtain ⟨cmds', ret'⟩ := cr
          rw [hrest] at hrun
          obtain ⟨h1, -⟩ := Prod.mk.injEq .. ▸ Option.some_inj.mp hrun
          subst h1
          rcases List.mem_cons.mp hud with rfl | hud'
          · exact List.mem_append.mpr
              (Or.inl (env_for_files_mem ud (cx.outputs ud.unit) set0 hset
                f hf hfl vs hvs pv hpv))
          · exact List.mem_append.mpr
              (Or.inr (ih cmds' ret' hrest ud hud' hart f hf hfl vs hvs pv hpv))
    · rw [if_neg h0] at hrun
      rcases List.mem_cons.mp hud with rfl | hud'
      · exact absurd hart h0
      · exact ih cmds ret hrun ud hud' hart f hf hfl vs hvs pv hpv

def unitBarBaz : Unit' := ⟨true, "bar-baz", ⟨"bar-baz", TargetKind.Bin⟩, 7⟩

def udBarBaz : UnitDep := ⟨unitBarBaz, none⟩

def cxBarBaz : Context :=
  ⟨fun u => if u = unitBarBaz
    then [⟨["out", "bar-baz"], FileFlavor.Normal⟩] else []⟩

def envBarBaz : List (String × List String) :=
  [("CARGO_BIN_DIR_BAR_BAZ", ["out"]),
    ("CARGO_BIN_FILE_BAR_BAZ_bar-baz", ["out", "bar-baz"]),
    ("CARGO_BIN_FILE_BAR_BAZ", ["out", "bar-baz"])]

def unitBar : Unit' := ⟨true, "bar", ⟨"bar", TargetKind.Bin⟩, 1⟩

def unitBaz : Unit' := ⟨true, "bar", ⟨"baz", TargetKind.Bin⟩, 2⟩

def udBar : UnitDep := ⟨unitBar, none⟩

def udBaz : UnitDep := ⟨unitBaz, none⟩

def cxBar : Context :=
  ⟨fun u => if u = unitBar then [⟨["out", "bar"], FileFlavor.Normal⟩]
    else if u = unitBaz then [⟨["out", "baz"], FileFlavor.Normal⟩] else []⟩

def envBar : List (String × List String) :=
  [("CARGO_BIN_DIR_BAR", ["out"]),
    ("CARGO_BIN_FILE_BAR_bar", ["out", "bar"]),
    ("CARGO_BIN_FILE_BAR", ["out", "bar"])]

def envBaz : List (String × List String) :=
  [("CARGO_BIN_DIR_BAR", ["out"]), ("CARGO_BIN_FILE_BAR_baz", ["out", "baz"])]

/-- C2: for each Normal-flavor output file of an artifact dependency,
`set_env` emits the `CARGO_{TYPE}_DIR_{NAME}` variable with the file's
parent directory and `CARGO_{TYPE}_FILE_{NAME}_{TARGETNAME}` with the file
path, where `NAME` is the normalized effective dependency name, and the
un-suffixed `CARGO_{TYPE}_FILE_{NAME}` exactly when the build-target's
name equals the un-normalized effective dependency name; every such pair
reaches the command environment; concretely, dependency `bar-baz` with one
binary `bar-baz` at `/out/bar-baz` yields the three expected variables
including the alias, and dependency `bar` with binaries `bar` and `baz`
aliases the un-suffixed variable only to the `bar` binary, never to
`baz`. -/
theorem artifact_env_var_naming :
    (∀ (ud : UnitDep) (path : List String) (ty : String)
        (vs : List (String × List String)),
      unit_artifact_type_name_upper ud.unit = some ty →
      env_for_file ud path = some vs →
        ("CARGO_" ++ ty ++ "_DIR_" ++ dep_name_upper ud, path.dropLast) ∈ vs ∧
        ("CARGO_" ++ ty ++ "_FILE_" ++ dep_name_upper ud ++ "_" ++
          ud.unit.target.name, path) ∈ vs ∧
        (("CARGO_" ++ ty ++ "_FILE_" ++ dep_name_upper ud, path) ∈ vs ↔
          ud.unit.target.name = effective_dep_name ud)) ∧
    (∀ (cx : Context) (deps : List UnitDep)
        (cmds : List (String × List String))
        (ret : Option (List (UnitMetadata × List (String × List String)))),
      set_env cx deps = some (cmds, ret) →
      ∀ ud ∈ deps, ud.unit.is_artifact = true →
        ∀ f ∈ cx.outputs ud.unit, f.flavor = FileFlavor.Normal →
          ∀ vs, env_for_file ud f.path = some vs → ∀ pv ∈ vs, pv ∈ cmds) ∧
    set_env cxBarBaz [udBarBaz] = some (envBarBaz, some [(7, envBarBaz)]) ∧
    set_env cxBar [udBar, udBaz] =
      some (envBar ++ envBaz, some [(1, envBar), (2, envBaz)]) ∧
    ("CARGO_BIN_FILE_BAR", ["out", "bar"]) ∈ envBar ++ envBaz ∧
    ("CARGO_BIN_FILE_BAR", ["out", "baz"]) ∉ envBar ++ envBaz := by
  refine ⟨fun ud path ty vs hty hvs => env_for_file_spec ud path ty vs hty hvs,
    ?_, rfl, rfl, by decide, by decide⟩
  intro cx deps cmds ret hrun ud hud hart f hf hfl vs hvs pv hpv
  unfold set_env at hrun
  obtain ⟨cr, hcr, heq⟩ := Option.map_eq_some'.mp hrun
  obtain ⟨h1, -⟩ := Prod.mk.injEq .. ▸ heq
  subst h1
  exact set_env_deps_mem cx deps cr.1 cr.2 (by rw [hcr]) ud hud hart f hf hfl
    vs hvs pv hpv

/-- C2 witness: the per-file naming facts instantiated on the concrete
`bar-baz` scenario. -/
theorem artifact_env_var_naming_witness :
    ("CARGO_" ++ "BIN" ++ "_DIR_" ++ dep_name_upper udBarBaz,
      (["out", "bar-baz"] : List String).dropLast) ∈ envBarBaz ∧
    ("CARGO_" ++ "BIN" ++ "_FILE_" ++ dep_name_upper udBarBaz ++ "_" ++
      udBarBaz.unit.target.name, ["out", "bar-baz"]) ∈ envBarBaz ∧
    (("CARGO_" ++ "BIN" ++ "_FILE_" ++ dep_name_upper udBarBaz,
      ["out", "bar-baz"]) ∈ envBarBaz ↔
      udBarBaz.unit.target.name = effective_dep_name udBarBaz) :=
  artifact_env_var_naming.1 udBarBaz ["out", "bar-baz"] "BIN" envBarBaz rfl rfl
